import Mathlib

/-!
Shallow embedding of the in-memory conversation session store
(`ConversationManager` in `src/lib/whatsapp/database-logger.ts`, together
with the entity types from `src/lib/whatsapp/types.ts`) of the
Odia.dev WhatsApp agent repository.

Modelling conventions:
* JavaScript `Date` values are modelled as natural-number millisecond
  timestamps; every store operation takes the current time `now : Nat`
  explicitly (the translation of each `new Date()` / `Date.now()` call).
* The JavaScript `Map` is modelled as an insertion-ordered association
  list `List (String × α)` with `Map.set` semantics: setting an existing
  key updates the entry in place (keeping its iteration position),
  setting a fresh key appends at the end.  `Map.get` returns the first
  entry with the key, `Map.delete` removes it.
* A method that in the source mutates `this` is a function from the
  manager state to (result × new state).
* The wall-clock timer callbacks armed by `setTimeout` are represented
  by the `sessionTimeouts` map holding each armed deadline
  (`now + SESSION_TIMEOUT`); the firing of a callback is real-time
  behaviour outside the store operations themselves.
-/

namespace SessionStore

/-- Role of a message, the `'user' | 'assistant'` union in `types.ts`. -/
inductive Role where
  | user
  | assistant
deriving DecidableEq

/-- The `Message` interface from `types.ts`. -/
structure Message where
  role : Role
  content : String
  timestamp : Nat
  messageId : Option String
deriving DecidableEq

/-- The `'prospect' | 'trial' | 'paid' | 'expired'` union in `types.ts`. -/
inductive TrialStatus where
  | prospect
  | trial
  | paid
  | expired
deriving DecidableEq

/-- The string key a trial status contributes to the `sessionsByStatus`
record built by `getSessionStats`. -/
def TrialStatus.key : TrialStatus → String
  | .prospect => "prospect"
  | .trial => "trial"
  | .paid => "paid"
  | .expired => "expired"

/-- The `BusinessContext` interface from `types.ts`. -/
structure BusinessContext where
  name : Option String
  industry : Option String
  trialStatus : TrialStatus
  signupDate : Option Nat
  lastPayment : Option Nat
deriving DecidableEq

/-- The `ConversationSession` interface from `types.ts`; `agent` is the
string `"lexi"` in every session the store creates. -/
structure ConversationSession where
  sessionId : String
  phoneNumber : String
  agent : String
  conversationHistory : List Message
  businessContext : BusinessContext
  lastActivity : Nat
  startTime : Nat
  isActive : Bool
deriving DecidableEq

/-- `Map.get`: the value at the first entry carrying the key, if any. -/
def mapGet {α : Type} : List (String × α) → String → Option α
  | [], _ => none
  | (k', v) :: rest, k => if k' = k then some v else mapGet rest k

/-- `Map.set`: update the first entry carrying the key in place, else
append a fresh entry at the end (JS `Map` insertion-order semantics). -/
def mapSet {α : Type} : List (String × α) → String → α → List (String × α)
  | [], k, v => [(k, v)]
  | (k', v') :: rest, k, v =>
    if k' = k then (k, v) :: rest else (k', v') :: mapSet rest k v

/-- `Map.delete`: remove the first entry carrying the key. -/
def mapDelete {α : Type} : List (String × α) → String → List (String × α)
  | [], _ => []
  | (k', v') :: rest, k => if k' = k then rest else (k', v') :: mapDelete rest k

/-- `SESSION_TIMEOUT = 30 * 60 * 1000` (30 minutes in milliseconds). -/
def SESSION_TIMEOUT : Nat := 30 * 60 * 1000

/-- `CLEANUP_INTERVAL = 5 * 60 * 1000` (5 minutes in milliseconds). -/
def CLEANUP_INTERVAL : Nat := 5 * 60 * 1000

/-- The mutable state of a `ConversationManager`: the `activeSessions`
map and the `sessionTimeouts` map (armed timer deadlines). -/
structure ConversationManager where
  activeSessions : List (String × ConversationSession)
  sessionTimeouts : List (String × Nat)
deriving DecidableEq

/-- The state of a freshly constructed manager: both maps empty. -/
def ConversationManager.init : ConversationManager := ⟨[], []⟩

/-- `clearSessionTimeout`: drop the armed deadline for the session. -/
def clearSessionTimeout (m : ConversationManager) (sessionId : String) :
    ConversationManager :=
  { m with sessionTimeouts := mapDelete m.sessionTimeouts sessionId }

/-- `setSessionTimeout`: clear any existing deadline, then arm a new one
`SESSION_TIMEOUT` from now. -/
def setSessionTimeout (m : ConversationManager) (sessionId : String) (now : Nat) :
    ConversationManager :=
  let m' := clearSessionTimeout m sessionId
  { m' with sessionTimeouts := mapSet m'.sessionTimeouts sessionId (now + SESSION_TIMEOUT) }

/-- `resetSessionTimeout` just delegates to `setSessionTimeout`. -/
def resetSessionTimeout (m : ConversationManager) (sessionId : String) (now : Nat) :
    ConversationManager :=
  setSessionTimeout m sessionId now

/-- `createSession(phoneNumber)`: build the fresh session record, store
it under its generated id, arm its timer, and return it. -/
def createSession (m : ConversationManager) (phoneNumber : String) (now : Nat) :
    ConversationSession × ConversationManager :=
  let sessionId := "whatsapp_" ++ phoneNumber ++ "_" ++ toString now
  let session : ConversationSession :=
    ⟨sessionId, phoneNumber, "lexi", [], ⟨none, none, .prospect, none, none⟩, now, now, true⟩
  let m' : ConversationManager := ⟨mapSet m.activeSessions sessionId session, m.sessionTimeouts⟩
  (session, setSessionTimeout m' sessionId now)

/-- The `for (const [sessionId, session] of this.activeSessions)` scan of
`getSession`: first entry whose session matches the phone number and is
active. -/
def findActiveByPhone (p : String) :
    List (String × ConversationSession) → Option (String × ConversationSession)
  | [] => none
  | e :: rest =>
    if e.2.phoneNumber = p ∧ e.2.isActive = true then some e else findActiveByPhone p rest

/-- `getSession(phoneNumber)`: scan for an active session with this
phone number; on a hit refresh `lastActivity`, rearm the timer and
return the session; on a miss return `null` leaving the state alone. -/
def getSession (m : ConversationManager) (phoneNumber : String) (now : Nat) :
    Option ConversationSession × ConversationManager :=
  match findActiveByPhone phoneNumber m.activeSessions with
  | none => (none, m)
  | some e =>
    let s' := { e.2 with lastActivity := now }
    let m' : ConversationManager := ⟨mapSet m.activeSessions e.1 s', m.sessionTimeouts⟩
    (some s', resetSessionTimeout m' e.1 now)

/-- `getSessionById(sessionId)`: direct lookup; only an existing *and*
active session is refreshed and returned, otherwise `null`. -/
def getSessionById (m : ConversationManager) (sessionId : String) (now : Nat) :
    Option ConversationSession × ConversationManager :=
  match mapGet m.activeSessions sessionId with
  | none => (none, m)
  | some s =>
    if s.isActive = true then
      let s' := { s with lastActivity := now }
      let m' : ConversationManager := ⟨mapSet m.activeSessions sessionId s', m.sessionTimeouts⟩
      (some s', resetSessionTimeout m' sessionId now)
    else (none, m)

/-- The `Partial<ConversationSession>` argument of `updateSession`: each
field optionally present. -/
structure SessionUpdates where
  sessionId : Option String := none
  phoneNumber : Option String := none
  agent : Option String := none
  conversationHistory : Option (List Message) := none
  businessContext : Option BusinessContext := none
  lastActivity : Option Nat := none
  startTime : Option Nat := none
  isActive : Option Bool := none
deriving DecidableEq

/-- `Object.assign(session, updates)`: every field present in the
partial record overwrites the session's field. -/
def applyUpdates (s : ConversationSession) (u : SessionUpdates) : ConversationSession :=
  ⟨u.sessionId.getD s.sessionId,
   u.phoneNumber.getD s.phoneNumber,
   u.agent.getD s.agent,
   u.conversationHistory.getD s.conversationHistory,
   u.businessContext.getD s.businessContext,
   u.lastActivity.getD s.lastActivity,
   u.startTime.getD s.startTime,
   u.isActive.getD s.isActive⟩

/-- `updateSession(sessionId, updates)`: not-found (`false`) when the id
is absent from the map; otherwise `Object.assign` the updates, stamp
`lastActivity := now`, rearm the timer and report `true`.  Note the
source checks only presence in the map, not `isActive`. -/
def updateSession (m : ConversationManager) (sessionId : String) (u : SessionUpdates)
    (now : Nat) : Bool × ConversationManager :=
  match mapGet m.activeSessions sessionId with
  | none => (false, m)
  | some s =>
    let s' := { applyUpdates s u with lastActivity := now }
    let m' : ConversationManager := ⟨mapSet m.activeSessions sessionId s', m.sessionTimeouts⟩
    (true, resetSessionTimeout m' sessionId now)

/-- `addMessageToSession(sessionId, message)`: not-found (`false`) when
the id is absent; otherwise push the message onto the history, stamp
`lastActivity := now`, rearm the timer and report `true`.  As with
`updateSession`, only presence in the map is checked. -/
def addMessageToSession (m : ConversationManager) (sessionId : String) (message : Message)
    (now : Nat) : Bool × ConversationManager :=
  match mapGet m.activeSessions sessionId with
  | none => (false, m)
  | some s =>
    let s' := { s with conversationHistory := s.conversationHistory ++ [message],
                       lastActivity := now }
    let m' : ConversationManager := ⟨mapSet m.activeSessions sessionId s', m.sessionTimeouts⟩
    (true, resetSessionTimeout m' sessionId now)

/-- `endSession(sessionId)`: not-found (`false`) when the id is absent;
otherwise set `isActive := false`, clear the timer and report `true`
(also when the stored session was already inactive). -/
def endSession (m : ConversationManager) (sessionId : String) :
    Bool × ConversationManager :=
  match mapGet m.activeSessions sessionId with
  | none => (false, m)
  | some s =>
    let m' : ConversationManager :=
      ⟨mapSet m.activeSessions sessionId { s with isActive := false },
       mapDelete m.sessionTimeouts sessionId⟩
    (true, m')

/-- `getActiveSessions()`: the stored sessions with `isActive = true`,
in map iteration order. -/
def getActiveSessions (m : ConversationManager) : List ConversationSession :=
  (m.activeSessions.map Prod.snd).filter (·.isActive)

/-- `getActiveSessionCount()`: length of `getActiveSessions()`. -/
def getActiveSessionCount (m : ConversationManager) : Nat :=
  (getActiveSessions m).length

/-- `cleanupExpiredSessions()`: walk the stored entries and `endSession`
every one that is already inactive or whose `lastActivity` lies more
than `SESSION_TIMEOUT` in the past.  The JS loop iterates the live map,
but each step of the loop only rewrites the entry it is visiting, so on
a map (distinct keys) the value seen at each entry is the original one;
the fold below iterates the original entry list accordingly. -/
def cleanupExpiredSessions (m : ConversationManager) (now : Nat) : ConversationManager :=
  m.activeSessions.foldl
    (fun acc e =>
      if e.2.isActive = false ∨ now - e.2.lastActivity > SESSION_TIMEOUT then
        (endSession acc e.1).2
      else acc)
    m

/-- The record returned by `getSessionStats()`.  The JS number division
for the average is modelled with exact rational division. -/
structure SessionStats where
  totalSessions : Nat
  activeSessions : Nat
  averageConversationLength : ℚ
  sessionsByStatus : List (String × Nat)

/-- The `reduce` building the `sessionsByStatus` record:
`acc[status] = (acc[status] || 0) + 1` over all stored sessions. -/
def statusCounts (sessions : List ConversationSession) : List (String × Nat) :=
  sessions.foldl
    (fun acc s =>
      mapSet acc s.businessContext.trialStatus.key
        ((mapGet acc s.businessContext.trialStatus.key).getD 0 + 1))
    []

/-- `getSessionStats()`: totals over the full stored set, the active
count, the average history length over active sessions, and the
per-trial-status counts. -/
def getSessionStats (m : ConversationManager) : SessionStats :=
  let sessions := m.activeSessions.map Prod.snd
  let active := sessions.filter (·.isActive)
  let avg : ℚ :=
    if active.length > 0 then
      ((active.foldl (fun sum s => sum + s.conversationHistory.length) 0 : Nat) : ℚ) /
        (active.length : ℚ)
    else 0
  ⟨sessions.length, active.length, avg, statusCounts sessions⟩

/-- The state-changing operations of the store, for reasoning about
arbitrary call sequences (the read-only aggregates `getActiveSessions`,
`getActiveSessionCount` and `getSessionStats` do not touch the state). -/
inductive Op where
  | create (phoneNumber : String) (now : Nat)
  | getByPhone (phoneNumber : String) (now : Nat)
  | getById (sessionId : String) (now : Nat)
  | update (sessionId : String) (u : SessionUpdates) (now : Nat)
  | append (sessionId : String) (message : Message) (now : Nat)
  | endSession (sessionId : String)
  | cleanup (now : Nat)

/-- The state transition of one operation. -/
def applyOp (m : ConversationManager) : Op → ConversationManager
  | .create p now => (createSession m p now).2
  | .getByPhone p now => (getSession m p now).2
  | .getById sid now => (getSessionById m sid now).2
  | .update sid u now => (updateSession m sid u now).2
  | .append sid msg now => (addMessageToSession m sid msg now).2
  | .endSession sid => (endSession m sid).2
  | .cleanup now => cleanupExpiredSessions m now

/-- Run a sequence of operations from a state. -/
def runOps (m : ConversationManager) (ops : List Op) : ConversationManager :=
  ops.foldl applyOp m

/-- A state is reachable when some operation sequence produces it from
the freshly constructed manager. -/
def Reachable (m : ConversationManager) : Prop :=
  ∃ ops : List Op, runOps ConversationManager.init ops = m

end SessionStore


namespace SessionStore

theorem mapGet_mapSet_self {α : Type} (l : List (String × α)) (k : String) (v : α) :
    mapGet (mapSet l k v) k = some v := by
  induction l with
  | nil => simp [mapSet, mapGet]
  | cons e rest ih =>
    obtain ⟨k', v'⟩ := e
    by_cases h : k' = k
    · simp [mapSet, h, mapGet]
    · simp [mapSet, h, mapGet, ih]

theorem mapGet_mapSet_ne {α : Type} (l : List (String × α)) (k k' : String) (v : α)
    (h : k' ≠ k) : mapGet (mapSet l k v) k' = mapGet l k' := by
  induction l with
  | nil => simp [mapSet, mapGet, Ne.symm h]
  | cons e rest ih =>
    obtain ⟨k₀, v₀⟩ := e
    by_cases h₀ : k₀ = k
    · subst h₀
      simp [mapSet, mapGet, Ne.symm h]
    · simp only [mapSet, if_neg h₀, mapGet, ih]

theorem mapSet_keys {α : Type} (l : List (String × α)) (k : String) (v : α) :
    (mapSet l k v).map Prod.fst =
      if k ∈ l.map Prod.fst then l.map Prod.fst else l.map Prod.fst ++ [k] := by
  induction l with
  | nil => simp [mapSet]
  | cons e rest ih =>
    obtain ⟨k₀, v₀⟩ := e
    by_cases h₀ : k₀ = k
    · simp [mapSet, h₀]
    · by_cases hm : k ∈ rest.map Prod.fst
      · simp [mapSet, h₀, hm, ih, Ne.symm h₀]
      · simp [mapSet, h₀, hm, ih, Ne.symm h₀]

theorem length_le_mapSet {α : Type} (l : List (String × α)) (k : String) (v : α) :
    l.length ≤ (mapSet l k v).length := by
  induction l with
  | nil => simp [mapSet]
  | cons e rest ih =>
    obtain ⟨k₀, v₀⟩ := e
    by_cases h₀ : k₀ = k
    · simp [mapSet, h₀]
    · simpa [mapSet, h₀] using ih

theorem mapGet_mem {α : Type} {l : List (String × α)} {k : String} {v : α}
    (h : mapGet l k = some v) : (k, v) ∈ l := by
  induction l with
  | nil => simp [mapGet] at h
  | cons e rest ih =>
    obtain ⟨k₀, v₀⟩ := e
    by_cases h₀ : k₀ = k
    · subst h₀
      rw [mapGet, if_pos rfl, Option.some.injEq] at h
      subst h
      exact List.mem_cons_self _ _
    · rw [mapGet, if_neg h₀] at h
      exact List.mem_cons_of_mem _ (ih h)

theorem mem_mapSet {α : Type} {l : List (String × α)} {k : String} {v : α}
    {e : String × α} (h : e ∈ mapSet l k v) : e = (k, v) ∨ e ∈ l := by
  induction l with
  | nil => simpa [mapSet] using h
  | cons e₀ rest ih =>
    obtain ⟨k₀, v₀⟩ := e₀
    by_cases h₀ : k₀ = k
    · rw [mapSet, if_pos h₀, List.mem_cons] at h
      rcases h with h | h
      · exact Or.inl h
      · exact Or.inr (List.mem_cons_of_mem _ h)
    · rw [mapSet, if_neg h₀, List.mem_cons] at h
      rcases h with h | h
      · exact Or.inr (by simp [h])
      · rcases ih h with h' | h'
        · exact Or.inl h'
        · exact Or.inr (List.mem_cons_of_mem _ h')

theorem mapGet_append_of_not_mem {α : Type} {l₁ : List (String × α)}
    (l₂ : List (String × α)) {k : String} (h : k ∉ l₁.map Prod.fst) :
    mapGet (l₁ ++ l₂) k = mapGet l₂ k := by
  induction l₁ with
  | nil => simp
  | cons e rest ih =>
    obtain ⟨k₀, v₀⟩ := e
    simp only [List.map_cons, List.mem_cons] at h
    push_neg at h
    rw [List.cons_append, mapGet, if_neg (Ne.symm h.1)]
    exact ih h.2

theorem mapSet_append_of_not_mem {α : Type} {l₁ : List (String × α)}
    (l₂ : List (String × α)) {k : String} (v : α) (h : k ∉ l₁.map Prod.fst) :
    mapSet (l₁ ++ l₂) k v = l₁ ++ mapSet l₂ k v := by
  induction l₁ with
  | nil => simp
  | cons e rest ih =>
    obtain ⟨k₀, v₀⟩ := e
    simp only [List.map_cons, List.mem_cons] at h
    push_neg at h
    rw [List.cons_append, mapSet, if_neg (Ne.symm h.1), List.cons_append]
    rw [ih h.2]

theorem mapSet_of_not_mem {α : Type} {l : List (String × α)} {k : String} (v : α)
    (h : k ∉ l.map Prod.fst) : mapSet l k v = l ++ [(k, v)] := by
  have h' := @mapSet_append_of_not_mem α l [] k v (by simpa using h)
  simpa [mapSet] using h'

theorem foldl_preserve {α σ : Type} (P : σ → Prop) (f : σ → α → σ)
    (hstep : ∀ s a, P s → P (f s a)) :
    ∀ (l : List α) (s : σ), P s → P (l.foldl f s) := by
  intro l
  induction l with
  | nil => intro s hs; simpa using hs
  | cons a rest ih =>
    intro s hs
    simpa using ih (f s a) (hstep s a hs)

theorem findActiveByPhone_some {p : String} {l : List (String × ConversationSession)}
    {e : String × ConversationSession} (h : findActiveByPhone p l = some e) :
    e.2.phoneNumber = p ∧ e.2.isActive = true ∧ e ∈ l := by
  induction l with
  | nil => simp [findActiveByPhone] at h
  | cons e₀ rest ih =>
    by_cases h₀ : e₀.2.phoneNumber = p ∧ e₀.2.isActive = true
    · rw [findActiveByPhone, if_pos h₀, Option.some.injEq] at h
      subst h
      exact ⟨h₀.1, h₀.2, List.mem_cons_self _ _⟩
    · rw [findActiveByPhone, if_neg h₀] at h
      obtain ⟨h₁, h₂, h₃⟩ := ih h
      exact ⟨h₁, h₂, List.mem_cons_of_mem _ h₃⟩

theorem findActiveByPhone_none {p : String} {l : List (String × ConversationSession)}
    (h : ∀ e ∈ l, ¬(e.2.phoneNumber = p ∧ e.2.isActive = true)) :
    findActiveByPhone p l = none := by
  induction l with
  | nil => simp [findActiveByPhone]
  | cons e₀ rest ih =>
    rw [findActiveByPhone, if_neg (h e₀ (List.mem_cons_self _ _))]
    exact ih fun e he => h e (List.mem_cons_of_mem _ he)

theorem findActiveByPhone_append {p : String} {l₁ : List (String × ConversationSession)}
    (l₂ : List (String × ConversationSession))
    (h : ∀ e ∈ l₁, ¬(e.2.phoneNumber = p ∧ e.2.isActive = true)) :
    findActiveByPhone p (l₁ ++ l₂) = findActiveByPhone p l₂ := by
  induction l₁ with
  | nil => simp
  | cons e₀ rest ih =>
    rw [List.cons_append, findActiveByPhone, if_neg (h e₀ (List.mem_cons_self _ _))]
    exact ih fun e he => h e (List.mem_cons_of_mem _ he)

theorem findActiveByPhone_mapSet_match {p k : String}
    {l : List (String × ConversationSession)} {v : ConversationSession}
    (h : ∀ e ∈ l, ¬(e.2.phoneNumber = p ∧ e.2.isActive = true))
    (hp : v.phoneNumber = p) (ha : v.isActive = true) :
    findActiveByPhone p (mapSet l k v) = some (k, v) := by
  induction l with
  | nil => simp [mapSet, findActiveByPhone, hp, ha]
  | cons e₀ rest ih =>
    obtain ⟨k₀, v₀⟩ := e₀
    by_cases h₀ : k₀ = k
    · rw [mapSet, if_pos h₀, findActiveByPhone, if_pos (by exact ⟨hp, ha⟩)]
    · rw [mapSet, if_neg h₀, findActiveByPhone,
        if_neg (h (k₀, v₀) (List.mem_cons_self _ _))]
      exact ih fun e he => h e (List.mem_cons_of_mem _ he)

theorem findActiveByPhone_exists {p : String} {l : List (String × ConversationSession)}
    {e : String × ConversationSession} (hm : e ∈ l) (hp : e.2.phoneNumber = p)
    (ha : e.2.isActive = true) : ∃ e', findActiveByPhone p l = some e' := by
  induction l with
  | nil => simp at hm
  | cons e₀ rest ih =>
    by_cases h₀ : e₀.2.phoneNumber = p ∧ e₀.2.isActive = true
    · exact ⟨e₀, by rw [findActiveByPhone, if_pos h₀]⟩
    · rcases List.mem_cons.mp hm with h | h
      · exact absurd ⟨h ▸ hp, h ▸ ha⟩ h₀
      · obtain ⟨e', he'⟩ := ih h
        exact ⟨e', by rw [findActiveByPhone, if_neg h₀, he']⟩

end SessionStore

namespace SessionStore

@[simp] theorem clearSessionTimeout_activeSessions (m : ConversationManager) (sid : String) :
    (clearSessionTimeout m sid).activeSessions = m.activeSessions := rfl

@[simp] theorem setSessionTimeout_activeSessions (m : ConversationManager) (sid : String)
    (now : Nat) : (setSessionTimeout m sid now).activeSessions = m.activeSessions := rfl

@[simp] theorem resetSessionTimeout_activeSessions (m : ConversationManager) (sid : String)
    (now : Nat) : (resetSessionTimeout m sid now).activeSessions = m.activeSessions := rfl

/-- Sample state used by concrete witnesses: one session created from
phone number `"p"` at time 0. -/
def mgrP : ConversationManager := (createSession ConversationManager.init "p" 0).2

/-- The id generated for the sample session. -/
def sidP : String := "whatsapp_p_0"

/-- The sample session record itself. -/
def sessP : ConversationSession := (createSession ConversationManager.init "p" 0).1

/-- A sample message. -/
def msgA : Message := ⟨.user, "hello", 1, none⟩

/-- C2 as stated is false on the code: `endSession` checks only presence
in the map, so ending a stored but already-ended session (`isActive =
false`) returns `true`, not the claimed not-found `false`. -/
theorem C2_counterexample :
    (mapGet (endSession mgrP sidP).2.activeSessions sidP).map (·.isActive) = some false ∧
    (endSession (endSession mgrP sidP).2 sidP).1 = true :=
  ⟨rfl, rfl⟩

/-- C2 (amended): `endSession` reports not-found (`false`) exactly when
the session id is absent from the map; any stored session — active or
already ended — yields `true`. -/
theorem C2_end_result (m : ConversationManager) (sid : String) :
    (endSession m sid).1 = (mapGet m.activeSessions sid).isSome := by
  cases h : mapGet m.activeSessions sid <;> simp [endSession, h]

/-- C1 as stated is false on the code: after a successful `endSession`,
`updateSession` and `addMessageToSession` still report `true` (they only
check presence in the map, not `isActive`), instead of the claimed
not-found `false`. -/
theorem C1_counterexample :
    (endSession mgrP sidP).1 = true ∧
    (updateSession (endSession mgrP sidP).2 sidP {} 1).1 = true ∧
    (addMessageToSession (endSession mgrP sidP).2 sidP msgA 1).1 = true :=
  ⟨rfl, rfl, rfl⟩

/-- C1 (amended): after `endSession(s)` returns success,
`getSessionById(s)` reports not-found, but a subsequent
`updateSession(s, …)` or `addMessageToSession(s, …)` still returns
`true` and mutates the ended session, because both check only presence
of the id in the map. -/
theorem C1_end_is_terminal (m : ConversationManager) (sid : String) (u : SessionUpdates)
    (msg : Message) (t : Nat) (h : (endSession m sid).1 = true) :
    (getSessionById (endSession m sid).2 sid t).1 = none ∧
    (updateSession (endSession m sid).2 sid u t).1 = true ∧
    (addMessageToSession (endSession m sid).2 sid msg t).1 = true := by
  cases hg : mapGet m.activeSessions sid with
  | none => simp [endSession, hg] at h
  | some s =>
    have hget : mapGet (endSession m sid).2.activeSessions sid =
        some { s with isActive := false } := by
      have hpost : (endSession m sid).2.activeSessions =
          mapSet m.activeSessions sid { s with isActive := false } := by
        simp [endSession, hg]
      rw [hpost]
      exact mapGet_mapSet_self _ _ _
    refine ⟨?_, ?_, ?_⟩
    · simp [getSessionById, hget]
    · simp [updateSession, hget]
    · simp [addMessageToSession, hget]

/-- Concrete instance of `C1_end_is_terminal` on the sample state. -/
theorem C1_end_is_terminal_witness :
    (getSessionById (endSession mgrP sidP).2 sidP 1).1 = none ∧
    (updateSession (endSession mgrP sidP).2 sidP {} 1).1 = true ∧
    (addMessageToSession (endSession mgrP sidP).2 sidP msgA 1).1 = true :=
  C1_end_is_terminal mgrP sidP {} msgA 1 rfl

/-- C4: `createSession(P)` returns a session with empty history, default
trial status `prospect`, `isActive = true`, phone number `P`, both
timestamps equal to now, and the id generated from `P` and now. -/
theorem C4_create_defaults (m : ConversationManager) (p : String) (now : Nat) :
    ((createSession m p now).1).conversationHistory = [] ∧
    ((createSession m p now).1).businessContext.trialStatus = TrialStatus.prospect ∧
    ((createSession m p now).1).isActive = true ∧
    ((createSession m p now).1).phoneNumber = p ∧
    ((createSession m p now).1).lastActivity = now ∧
    ((createSession m p now).1).startTime = now ∧
    ((createSession m p now).1).sessionId = "whatsapp_" ++ p ++ "_" ++ toString now :=
  ⟨rfl, rfl, rfl, rfl, rfl, rfl, rfl⟩

/-- C8: `getActiveSessionCount()` equals the length of
`getActiveSessions()`, and `getSessionStats().activeSessions` equals the
same value. -/
theorem C8_stats_consistency (m : ConversationManager) :
    getActiveSessionCount m = (getActiveSessions m).length ∧
    (getSessionStats m).activeSessions = (getActiveSessions m).length :=
  ⟨rfl, rfl⟩

/-- C3: `getSession(P)` returns a session only when its phone number is
`P` and it is active, and on such a hit the session (as stored and as
returned) carries `lastActivity = now`; when the store holds no active
session for `P`, it returns the not-found outcome (`null`) and leaves
the state unchanged. -/
theorem C3_get_by_phone (m : ConversationManager) (p : String) (now : Nat)
    (s : ConversationSession) :
    ((∀ e ∈ m.activeSessions, e.2.phoneNumber = p → e.2.isActive = false) →
      (getSession m p now).1 = none ∧ (getSession m p now).2 = m) ∧
    ((getSession m p now).1 = some s →
      s.phoneNumber = p ∧ s.isActive = true ∧ s.lastActivity = now ∧
      ∃ k, mapGet (getSession m p now).2.activeSessions k = some s) := by
  constructor
  · intro hA
    have hNo : ∀ e ∈ m.activeSessions, ¬(e.2.phoneNumber = p ∧ e.2.isActive = true) := by
      intro e he hc
      have hf := hA e he hc.1
      rw [hc.2] at hf
      simp at hf
    have hf : findActiveByPhone p m.activeSessions = none := findActiveByPhone_none hNo
    exact ⟨by simp [getSession, hf], by simp [getSession, hf]⟩
  · cases hf : findActiveByPhone p m.activeSessions with
    | none =>
      intro hcon
      simp [getSession, hf] at hcon
    | some e =>
      obtain ⟨hp, ha, _⟩ := findActiveByPhone_some hf
      intro hs
      have hse : s = { e.2 with lastActivity := now } := by
        simp [getSession, hf] at hs
        exact hs.symm
      subst hse
      refine ⟨hp, ha, rfl, ⟨e.1, ?_⟩⟩
      have hpost : (getSession m p now).2.activeSessions =
          mapSet m.activeSessions e.1 { e.2 with lastActivity := now } := by
        simp [getSession, hf]
      rw [hpost]
      exact mapGet_mapSet_self _ _ _

/-- Concrete instances of `C3_get_by_phone` on the sample state: the
store has no active session for `"q"`, so that lookup reports not-found
and leaves the state alone; the lookup for `"p"` hits the stored
session. -/
theorem C3_get_by_phone_witness :
    ((getSession mgrP "q" 5).1 = none ∧ (getSession mgrP "q" 5).2 = mgrP) ∧
    (({ sessP with lastActivity := 5 } : ConversationSession).phoneNumber = "p" ∧
     ({ sessP with lastActivity := 5 } : ConversationSession).isActive = true ∧
     ({ sessP with lastActivity := 5 } : ConversationSession).lastActivity = 5 ∧
     ∃ k, mapGet (getSession mgrP "p" 5).2.activeSessions k =
       some { sessP with lastActivity := 5 }) :=
  ⟨(C3_get_by_phone mgrP "q" 5 sessP).1 (by decide),
   (C3_get_by_phone mgrP "p" 5 { sessP with lastActivity := 5 }).2 rfl⟩

/-- C5: when the store holds no active session for `P`, a
`createSession(P)` followed by `getSession(P)` returns exactly the
session just created (refreshed to the access time); and after a second
`createSession(P)` without ending the first, `getSession(P)` still
returns one definite active session for `P` (the scan returns the first
matching entry in insertion order). -/
theorem C5_single_active_per_phone (m : ConversationManager) (p : String)
    (t1 t2 now : Nat)
    (hA : ∀ e ∈ m.activeSessions, e.2.phoneNumber = p → e.2.isActive = false) :
    ((getSession (createSession m p t1).2 p now).1 =
      some { (createSession m p t1).1 with lastActivity := now }) ∧
    (∃ s, (getSession (createSession (createSession m p t1).2 p t2).2 p now).1 = some s ∧
      s.phoneNumber = p ∧ s.isActive = true ∧ s.lastActivity = now) := by
  have hNo : ∀ e ∈ m.activeSessions, ¬(e.2.phoneNumber = p ∧ e.2.isActive = true) := by
    intro e he hc
    have hfalse := hA e he hc.1
    rw [hc.2] at hfalse
    simp at hfalse
  constructor
  · have hf : findActiveByPhone p (createSession m p t1).2.activeSessions =
        some ("whatsapp_" ++ p ++ "_" ++ toString t1, (createSession m p t1).1) := by
      exact findActiveByPhone_mapSet_match hNo rfl rfl
    simp [getSession, hf]
  · have hmem : ((("whatsapp_" ++ p ++ "_" ++ toString t2) : String),
        (createSession (createSession m p t1).2 p t2).1) ∈
        (createSession (createSession m p t1).2 p t2).2.activeSessions := by
      exact mapGet_mem (mapGet_mapSet_self _ _ _)
    obtain ⟨e', he'⟩ := findActiveByPhone_exists (p := p) hmem rfl rfl
    obtain ⟨hp', ha', _⟩ := findActiveByPhone_some he'
    refine ⟨{ e'.2 with lastActivity := now }, ?_, hp', ha', rfl⟩
    simp [getSession, he']

/-- Concrete instance of `C5_single_active_per_phone` on the empty
store. -/
theorem C5_single_active_per_phone_witness :
    ((getSession (createSession ConversationManager.init "p" 0).2 "p" 5).1 =
      some { (createSession ConversationManager.init "p" 0).1 with lastActivity := 5 }) ∧
    (∃ s, (getSession
        (createSession (createSession ConversationManager.init "p" 0).2 "p" 1).2 "p" 5).1 =
          some s ∧
      s.phoneNumber = "p" ∧ s.isActive = true ∧ s.lastActivity = 5) :=
  C5_single_active_per_phone ConversationManager.init "p" 0 1 5
    (by intro e he _; exact absurd he (List.not_mem_nil e))

end SessionStore

namespace SessionStore

theorem mapGet_of_mem_nodup {α : Type} {l : List (String × α)} {k : String} {v : α}
    (hnd : (l.map Prod.fst).Nodup) (hm : (k, v) ∈ l) : mapGet l k = some v := by
  induction l with
  | nil => simp at hm
  | cons e rest ih =>
    obtain ⟨k₀, v₀⟩ := e
    simp only [List.map_cons, List.nodup_cons] at hnd
    rcases List.mem_cons.mp hm with h | h
    · obtain ⟨hk, hv⟩ := Prod.mk.injEq .. ▸ h
      subst hk
      subst hv
      rw [mapGet, if_pos rfl]
    · have hne : k₀ ≠ k := by
        intro he
        subst he
        exact hnd.1 (List.mem_map.mpr ⟨(k₀, v), h, rfl⟩)
      rw [mapGet, if_neg hne]
      exact ih hnd.2 h

theorem nodup_mapSet {α : Type} {l : List (String × α)} (k : String) (v : α)
    (h : (l.map Prod.fst).Nodup) : ((mapSet l k v).map Prod.fst).Nodup := by
  rw [mapSet_keys]
  split
  · exact h
  · rw [List.nodup_append]
    refine ⟨h, List.nodup_singleton _, ?_⟩
    intro a ha hak
    rw [List.mem_singleton.mp hak] at ha
    exact absurd ha (by assumption)

theorem keys_subset_mapSet {α : Type} (l : List (String × α)) (k : String) (v : α) :
    l.map Prod.fst ⊆ (mapSet l k v).map Prod.fst := by
  rw [mapSet_keys]
  split
  · exact List.Subset.refl _
  · exact List.subset_append_left _ _

theorem nodup_endSession (m : ConversationManager) (sid : String)
    (h : (m.activeSessions.map Prod.fst).Nodup) :
    ((endSession m sid).2.activeSessions.map Prod.fst).Nodup := by
  cases hg : mapGet m.activeSessions sid with
  | none => simpa [endSession, hg] using h
  | some s =>
    simp only [endSession, hg]
    exact nodup_mapSet _ _ h

theorem nodup_applyOp (m : ConversationManager) (op : Op)
    (h : (m.activeSessions.map Prod.fst).Nodup) :
    ((applyOp m op).activeSessions.map Prod.fst).Nodup := by
  cases op with
  | create p t =>
    simp only [applyOp, createSession, setSessionTimeout_activeSessions]
    exact nodup_mapSet _ _ h
  | getByPhone p t =>
    cases hf : findActiveByPhone p m.activeSessions with
    | none => simpa [applyOp, getSession, hf] using h
    | some e =>
      simp only [applyOp, getSession, hf, resetSessionTimeout_activeSessions]
      exact nodup_mapSet _ _ h
  | getById sid t =>
    cases hg : mapGet m.activeSessions sid with
    | none => simpa [applyOp, getSessionById, hg] using h
    | some s =>
      by_cases ha : s.isActive = true
      · simp only [applyOp, getSessionById, hg, if_pos ha, resetSessionTimeout_activeSessions]
        exact nodup_mapSet _ _ h
      · simpa [applyOp, getSessionById, hg, ha] using h
  | update sid u t =>
    cases hg : mapGet m.activeSessions sid with
    | none => simpa [applyOp, updateSession, hg] using h
    | some s =>
      simp only [applyOp, updateSession, hg, resetSessionTimeout_activeSessions]
      exact nodup_mapSet _ _ h
  | append sid msg t =>
    cases hg : mapGet m.activeSessions sid with
    | none => simpa [applyOp, addMessageToSession, hg] using h
    | some s =>
      simp only [applyOp, addMessageToSession, hg, resetSessionTimeout_activeSessions]
      exact nodup_mapSet _ _ h
  | endSession sid =>
    simp only [applyOp]
    exact nodup_endSession m sid h
  | cleanup t =>
    simp only [applyOp, cleanupExpiredSessions]
    refine foldl_preserve
      (fun acc : ConversationManager => ((acc.activeSessions.map Prod.fst).Nodup)) _ ?_ _ _ h
    intro acc e hacc
    by_cases hc : e.2.isActive = false ∨ t - e.2.lastActivity > SESSION_TIMEOUT
    · rw [if_pos hc]
      exact nodup_endSession acc e.1 hacc
    · rwa [if_neg hc]

theorem reachable_nodup (m : ConversationManager) (h : Reachable m) :
    (m.activeSessions.map Prod.fst).Nodup := by
  obtain ⟨ops, hops⟩ := h
  rw [← hops]
  refine foldl_preserve
    (fun mm : ConversationManager => ((mm.activeSessions.map Prod.fst).Nodup)) _ ?_ _ _ ?_
  · intro mm op hmm
    exact nodup_applyOp mm op hmm
  · simp [ConversationManager.init]

/-- The predicate relating every stored entry's key to the session it
holds; it holds for all states reachable without id-overwriting
updates. -/
def KeyConsistent (m : ConversationManager) : Prop :=
  ∀ e ∈ m.activeSessions, e.2.sessionId = e.1

/-- An operation that does not carry an explicit `sessionId` field in an
update partial. -/
def idSafe : Op → Prop
  | .update _ u _ => u.sessionId = none
  | _ => True

theorem keyConsistent_mapSet {A : List (String × ConversationSession)} {k : String}
    {v : ConversationSession} (h : ∀ e ∈ A, e.2.sessionId = e.1)
    (e : String × ConversationSession) (he : e ∈ mapSet A k v) (hv : v.sessionId = k) :
    e.2.sessionId = e.1 := by
  rcases mem_mapSet he with h' | h'
  · rw [h']
    exact hv
  · exact h e h'

/-- C9 as stated is false on the code: `updateSession` merges the whole
partial record with `Object.assign`, so a partial carrying a
`sessionId` field overwrites the stored session's id. -/
theorem C9_counterexample :
    (updateSession mgrP sidP { sessionId := some "other" } 1).1 = true ∧
    (mapGet (updateSession mgrP sidP { sessionId := some "other" } 1).2.activeSessions
        sidP).map (·.sessionId) = some "other" ∧
    sessP.sessionId = sidP ∧ "other" ≠ sidP :=
  ⟨rfl, rfl, rfl, by decide⟩

/-- C9 (amended): a stored session's `sessionId` is never changed by any
operation other than `updateSession` called with a partial that itself
contains a `sessionId` field; under such id-safe operations every entry
keeps the id it was created with (the key it is stored under). -/
theorem C9_sessionId_stable (m : ConversationManager) (op : Op)
    (hk : KeyConsistent m) (hs : idSafe op) :
    KeyConsistent (applyOp m op) ∧
    ∀ k s s', mapGet m.activeSessions k = some s →
      mapGet (applyOp m op).activeSessions k = some s' → s'.sessionId = s.sessionId := by
  have hmain : KeyConsistent (applyOp m op) := by
    cases op with
    | create p t =>
      intro e he
      simp only [applyOp, createSession, setSessionTimeout_activeSessions] at he
      exact keyConsistent_mapSet hk e he rfl
    | getByPhone p t =>
      cases hf : findActiveByPhone p m.activeSessions with
      | none =>
        intro e he
        simp only [applyOp, getSession, hf] at he
        exact hk e he
      | some e₀ =>
        intro e he
        simp only [applyOp, getSession, hf, resetSessionTimeout_activeSessions] at he
        have hid : e₀.2.sessionId = e₀.1 := hk e₀ (findActiveByPhone_some hf).2.2
        exact keyConsistent_mapSet hk e he hid
    | getById sid t =>
      cases hg : mapGet m.activeSessions sid with
      | none =>
        intro e he
        simp only [applyOp, getSessionById, hg] at he
        exact hk e he
      | some s =>
        by_cases ha : s.isActive = true
        · intro e he
          simp only [applyOp, getSessionById, hg, if_pos ha,
            resetSessionTimeout_activeSessions] at he
          have hid : s.sessionId = sid := hk (sid, s) (mapGet_mem hg)
          exact keyConsistent_mapSet hk e he hid
        · intro e he
          simp only [applyOp, getSessionById, hg, if_neg ha] at he
          exact hk e he
    | update sid u t =>
      cases hg : mapGet m.activeSessions sid with
      | none =>
        intro e he
        simp only [applyOp, updateSession, hg] at he
        exact hk e he
      | some s =>
        intro e he
        simp only [applyOp, updateSession, hg, resetSessionTimeout_activeSessions] at he
        have hid : s.sessionId = sid := hk (sid, s) (mapGet_mem hg)
        have hs' : u.sessionId = none := hs
        have hupd : ({ applyUpdates s u with lastActivity := t }).sessionId = sid := by
          simp [applyUpdates, hs', hid]
        exact keyConsistent_mapSet hk e he hupd
    | append sid msg t =>
      cases hg : mapGet m.activeSessions sid with
      | none =>
        intro e he
        simp only [applyOp, addMessageToSession, hg] at he
        exact hk e he
      | some s =>
        intro e he
        simp only [applyOp, addMessageToSession, hg, resetSessionTimeout_activeSessions] at he
        have hid : s.sessionId = sid := hk (sid, s) (mapGet_mem hg)
        exact keyConsistent_mapSet hk e he hid
    | endSession sid =>
      cases hg : mapGet m.activeSessions sid with
      | none =>
        intro e he
        simp only [applyOp, endSession, hg] at he
        exact hk e he
      | some s =>
        intro e he
        simp only [applyOp, endSession, hg] at he
        have hid : s.sessionId = sid := hk (sid, s) (mapGet_mem hg)
        exact keyConsistent_mapSet hk e he hid
    | cleanup t =>
      simp only [applyOp, cleanupExpiredSessions]
      refine foldl_preserve (fun acc : ConversationManager => KeyConsistent acc) _ ?_ _ _ hk
      intro acc e hacc
      by_cases hc : e.2.isActive = false ∨ t - e.2.lastActivity > SESSION_TIMEOUT
      · rw [if_pos hc]
        cases hg : mapGet acc.activeSessions e.1 with
        | none =>
          intro e' he'
          simp only [endSession, hg] at he'
          exact hacc e' he'
        | some cur =>
          intro e' he'
          simp only [endSession, hg] at he'
          have hid : cur.sessionId = e.1 := hacc (e.1, cur) (mapGet_mem hg)
          exact keyConsistent_mapSet hacc e' he' hid
      · rwa [if_neg hc]
  refine ⟨hmain, ?_⟩
  intro k s s' hg hg'
  have h1 : s.sessionId = k := hk (k, s) (mapGet_mem hg)
  have h2 : s'.sessionId = k := hmain (k, s') (mapGet_mem hg')
  exact h2.trans h1.symm

/-- Concrete instance of `C9_sessionId_stable`: appending a message to
the sample store keeps every entry's id equal to its key. -/
theorem C9_sessionId_stable_witness :
    KeyConsistent (applyOp mgrP (Op.append sidP msgA 1)) := by
  have hk : KeyConsistent mgrP := by
    intro e he
    rw [List.mem_singleton.mp he]
  exact (C9_sessionId_stable mgrP (Op.append sidP msgA 1) hk (by trivial)).1

theorem endSession_mono (m : ConversationManager) (sid : String) :
    m.activeSessions.map Prod.fst ⊆ (endSession m sid).2.activeSessions.map Prod.fst ∧
    m.activeSessions.length ≤ (endSession m sid).2.activeSessions.length := by
  cases hg : mapGet m.activeSessions sid with
  | none => simp [endSession, hg]
  | some s =>
    simp only [endSession, hg]
    exact ⟨keys_subset_mapSet _ _ _, length_le_mapSet _ _ _⟩

theorem applyOp_mono (m : ConversationManager) (op : Op) :
    m.activeSessions.map Prod.fst ⊆ (applyOp m op).activeSessions.map Prod.fst ∧
    m.activeSessions.length ≤ (applyOp m op).activeSessions.length := by
  cases op with
  | create p t =>
    simp only [applyOp, createSession, setSessionTimeout_activeSessions]
    exact ⟨keys_subset_mapSet _ _ _, length_le_mapSet _ _ _⟩
  | getByPhone p t =>
    cases hf : findActiveByPhone p m.activeSessions with
    | none => simp [applyOp, getSession, hf]
    | some e =>
      simp only [applyOp, getSession, hf, resetSessionTimeout_activeSessions]
      exact ⟨keys_subset_mapSet _ _ _, length_le_mapSet _ _ _⟩
  | getById sid t =>
    cases hg : mapGet m.activeSessions sid with
    | none => simp [applyOp, getSessionById, hg]
    | some s =>
      by_cases ha : s.isActive = true
      · simp only [applyOp, getSessionById, hg, if_pos ha, resetSessionTimeout_activeSessions]
        exact ⟨keys_subset_mapSet _ _ _, length_le_mapSet _ _ _⟩
      · simp [applyOp, getSessionById, hg, ha]
  | update sid u t =>
    cases hg : mapGet m.activeSessions sid with
    | none => simp [applyOp, updateSession, hg]
    | some s =>
      simp only [applyOp, updateSession, hg, resetSessionTimeout_activeSessions]
      exact ⟨keys_subset_mapSet _ _ _, length_le_mapSet _ _ _⟩
  | append sid msg t =>
    cases hg : mapGet m.activeSessions sid with
    | none => simp [applyOp, addMessageToSession, hg]
    | some s =>
      simp only [applyOp, addMessageToSession, hg, resetSessionTimeout_activeSessions]
      exact ⟨keys_subset_mapSet _ _ _, length_le_mapSet _ _ _⟩
  | endSession sid =>
    simp only [applyOp]
    exact endSession_mono m sid
  | cleanup t =>
    simp only [applyOp, cleanupExpiredSessions]
    refine foldl_preserve
      (fun acc : ConversationManager =>
        m.activeSessions.map Prod.fst ⊆ acc.activeSessions.map Prod.fst ∧
        m.activeSessions.length ≤ acc.activeSessions.length) _ ?_ _ _
      ⟨List.Subset.refl _, le_refl _⟩
    intro acc e hacc
    by_cases hc : e.2.isActive = false ∨ t - e.2.lastActivity > SESSION_TIMEOUT
    · rw [if_pos hc]
      have h := endSession_mono acc e.1
      exact ⟨hacc.1.trans h.1, le_trans hacc.2 h.2⟩
    · rwa [if_neg hc]

/-- C10: no store operation ever removes an entry from the session map —
across any sequence of operations every stored key stays stored, and
`getSessionStats().totalSessions` never decreases. -/
theorem C10_no_entry_removal (m : ConversationManager) (ops : List Op) :
    m.activeSessions.map Prod.fst ⊆ (runOps m ops).activeSessions.map Prod.fst ∧
    (getSessionStats m).totalSessions ≤ (getSessionStats (runOps m ops)).totalSessions := by
  have key : ∀ (l : List Op) (mm : ConversationManager),
      mm.activeSessions.map Prod.fst ⊆ (runOps mm l).activeSessions.map Prod.fst ∧
      mm.activeSessions.length ≤ (runOps mm l).activeSessions.length := by
    intro l
    induction l with
    | nil => intro mm; exact ⟨List.Subset.refl _, le_refl _⟩
    | cons op rest ih =>
      intro mm
      have h1 := applyOp_mono mm op
      have h2 := ih (applyOp mm op)
      constructor
      · exact h1.1.trans (by simpa [runOps] using h2.1)
      · exact le_trans h1.2 (by simpa [runOps] using h2.2)
  refine ⟨(key ops m).1, ?_⟩
  have h := (key ops m).2
  simpa [getSessionStats, List.length_map] using h

end SessionStore

namespace SessionStore

/-- A finite sequence of `addMessageToSession` calls on one session id,
each with its message and call time. -/
def appendRun (sid : String) : ConversationManager → List (Message × Nat) → ConversationManager
  | m, [] => m
  | m, (msg, t) :: rest => appendRun sid (addMessageToSession m sid msg t).2 rest

/-- The operations whose effect on stored histories is purely
extension: everything except `updateSession` with a partial that
contains a `conversationHistory` field (which replaces the history
wholesale) and `createSession`, whose per-key effect on histories is
characterised separately in the C6 theorem (at its generated id it
installs a fresh empty history, at every other key it changes
nothing). -/
def historySafe : Op → Prop
  | .create _ _ => False
  | .update _ u _ => u.conversationHistory = none
  | _ => True

theorem appendRun_of_absent (sid : String) :
    ∀ (l : List (Message × Nat)) (m : ConversationManager),
      mapGet m.activeSessions sid = none → appendRun sid m l = m := by
  intro l
  induction l with
  | nil => intro m _; rfl
  | cons e rest ih =>
    intro m h
    obtain ⟨msg, t⟩ := e
    have hstep : (addMessageToSession m sid msg t).2 = m := by
      simp [addMessageToSession, h]
    simp only [appendRun, hstep]
    exact ih m h

theorem appendRun_history (sid : String) :
    ∀ (l : List (Message × Nat)) (m : ConversationManager) (s : ConversationSession),
      mapGet m.activeSessions sid = some s →
      ∃ s', mapGet (appendRun sid m l).activeSessions sid = some s' ∧
        s'.conversationHistory = s.conversationHistory ++ l.map Prod.fst := by
  intro l
  induction l with
  | nil => intro m s h; exact ⟨s, h, by simp⟩
  | cons e rest ih =>
    intro m s h
    obtain ⟨msg, t⟩ := e
    have hget : mapGet (addMessageToSession m sid msg t).2.activeSessions sid =
        some { s with conversationHistory := s.conversationHistory ++ [msg],
                      lastActivity := t } := by
      have hstep : (addMessageToSession m sid msg t).2.activeSessions =
          mapSet m.activeSessions sid
            { s with conversationHistory := s.conversationHistory ++ [msg],
                     lastActivity := t } := by
        simp [addMessageToSession, h]
      rw [hstep]
      exact mapGet_mapSet_self _ _ _
    obtain ⟨s', hs', hh⟩ := ih (addMessageToSession m sid msg t).2 _ hget
    refine ⟨s', by simpa [appendRun] using hs', ?_⟩
    rw [hh]
    simp

theorem history_extends_mapSet {A : List (String × ConversationSession)} {q k : String}
    {v s s' : ConversationSession}
    (hget : mapGet A k = some s) (hget' : mapGet (mapSet A q v) k = some s')
    (hv : ∀ s₀, mapGet A q = some s₀ →
      ∃ tl, v.conversationHistory = s₀.conversationHistory ++ tl) :
    ∃ tl, s'.conversationHistory = s.conversationHistory ++ tl := by
  by_cases hk : k = q
  · subst hk
    rw [mapGet_mapSet_self] at hget'
    obtain ⟨tl, htl⟩ := hv s hget
    injection hget' with h'
    exact ⟨tl, by rw [← h']; exact htl⟩
  · rw [mapGet_mapSet_ne _ _ _ _ hk] at hget'
    rw [hget] at hget'
    injection hget' with h'
    exact ⟨[], by rw [← h']; simp⟩

theorem cleanup_history_extends (m : ConversationManager) (t : Nat) :
    ∀ k s, mapGet m.activeSessions k = some s →
      ∃ s', mapGet (cleanupExpiredSessions m t).activeSessions k = some s' ∧
        ∃ tl, s'.conversationHistory = s.conversationHistory ++ tl := by
  unfold cleanupExpiredSessions
  refine foldl_preserve
    (fun acc : ConversationManager => ∀ k s, mapGet m.activeSessions k = some s →
      ∃ s', mapGet acc.activeSessions k = some s' ∧
        ∃ tl, s'.conversationHistory = s.conversationHistory ++ tl) _ ?_ _ _ ?_
  · intro acc e hacc
    by_cases hc : e.2.isActive = false ∨ t - e.2.lastActivity > SESSION_TIMEOUT
    · rw [if_pos hc]
      intro k s hk
      obtain ⟨s₁, hs₁, tl₁, htl₁⟩ := hacc k s hk
      cases hg : mapGet acc.activeSessions e.1 with
      | none => exact ⟨s₁, by simpa [endSession, hg] using hs₁, tl₁, htl₁⟩
      | some cur =>
        by_cases hke : k = e.1
        · subst hke
          rw [hs₁] at hg
          injection hg with hcs
          refine ⟨{ cur with isActive := false }, ?_, tl₁, ?_⟩
          · simp only [endSession]
            rw [hs₁, hcs]
            exact mapGet_mapSet_self _ _ _
          · show cur.conversationHistory = s.conversationHistory ++ tl₁
            rw [← hcs]
            exact htl₁
        · refine ⟨s₁, ?_, tl₁, htl₁⟩
          simp only [endSession, hg]
          rw [mapGet_mapSet_ne _ _ _ _ hke]
          exact hs₁
    · rwa [if_neg hc]
  · intro k s hk
    exact ⟨s, hk, [], by simp⟩

theorem historySafe_extends (m : ConversationManager) (op : Op) (hsafe : historySafe op)
    (hnd : (m.activeSessions.map Prod.fst).Nodup) :
    ∀ k s s', mapGet m.activeSessions k = some s →
      mapGet (applyOp m op).activeSessions k = some s' →
      ∃ tl, s'.conversationHistory = s.conversationHistory ++ tl := by
  cases op with
  | create p t => simp [historySafe] at hsafe
  | getByPhone p t =>
    cases hf : findActiveByPhone p m.activeSessions with
    | none =>
      intro k s s' hget hget'
      simp only [applyOp, getSession, hf] at hget'
      rw [hget] at hget'
      injection hget' with h'
      exact ⟨[], by rw [← h']; simp⟩
    | some e₀ =>
      intro k s s' hget hget'
      simp only [applyOp, getSession, hf, resetSessionTimeout_activeSessions] at hget'
      have hq : mapGet m.activeSessions e₀.1 = some e₀.2 :=
        mapGet_of_mem_nodup hnd (findActiveByPhone_some hf).2.2
      refine history_extends_mapSet hget hget' ?_
      intro s₀ h₀
      rw [hq] at h₀
      injection h₀ with h₀
      exact ⟨[], by rw [← h₀]; simp⟩
  | getById sid t =>
    cases hg : mapGet m.activeSessions sid with
    | none =>
      intro k s s' hget hget'
      simp only [applyOp, getSessionById, hg] at hget'
      rw [hget] at hget'
      injection hget' with h'
      exact ⟨[], by rw [← h']; simp⟩
    | some s₀ =>
      by_cases ha : s₀.isActive = true
      · intro k s s' hget hget'
        simp only [applyOp, getSessionById, hg, if_pos ha,
          resetSessionTimeout_activeSessions] at hget'
        refine history_extends_mapSet hget hget' ?_
        intro s₁ h₁
        rw [hg] at h₁
        injection h₁ with h₁
        exact ⟨[], by rw [← h₁]; simp⟩
      · intro k s s' hget hget'
        simp only [applyOp, getSessionById, hg, if_neg ha] at hget'
        rw [hget] at hget'
        injection hget' with h'
        exact ⟨[], by rw [← h']; simp⟩
  | update sid u t =>
    have hu : u.conversationHistory = none := hsafe
    cases hg : mapGet m.activeSessions sid with
    | none =>
      intro k s s' hget hget'
      simp only [applyOp, updateSession, hg] at hget'
      rw [hget] at hget'
      injection hget' with h'
      exact ⟨[], by rw [← h']; simp⟩
    | some s₀ =>
      intro k s s' hget hget'
      simp only [applyOp, updateSession, hg, resetSessionTimeout_activeSessions] at hget'
      refine history_extends_mapSet hget hget' ?_
      intro s₁ h₁
      rw [hg] at h₁
      injection h₁ with h₁
      exact ⟨[], by rw [← h₁]; simp [applyUpdates, hu]⟩
  | append sid msg t =>
    cases hg : mapGet m.activeSessions sid with
    | none =>
      intro k s s' hget hget'
      simp only [applyOp, addMessageToSession, hg] at hget'
      rw [hget] at hget'
      injection hget' with h'
      exact ⟨[], by rw [← h']; simp⟩
    | some s₀ =>
      intro k s s' hget hget'
      simp only [applyOp, addMessageToSession, hg, resetSessionTimeout_activeSessions] at hget'
      refine history_extends_mapSet hget hget' ?_
      intro s₁ h₁
      rw [hg] at h₁
      injection h₁ with h₁
      exact ⟨[msg], by rw [← h₁]⟩
  | endSession sid =>
    cases hg : mapGet m.activeSessions sid with
    | none =>
      intro k s s' hget hget'
      simp only [applyOp, endSession, hg] at hget'
      rw [hget] at hget'
      injection hget' with h'
      exact ⟨[], by rw [← h']; simp⟩
    | some s₀ =>
      intro k s s' hget hget'
      simp only [applyOp, endSession, hg] at hget'
      refine history_extends_mapSet hget hget' ?_
      intro s₁ h₁
      rw [hg] at h₁
      injection h₁ with h₁
      exact ⟨[], by rw [← h₁]; simp⟩
  | cleanup t =>
    intro k s s' hget hget'
    obtain ⟨s₁, hs₁, tl, htl⟩ := cleanup_history_extends m t k s hget
    simp only [applyOp] at hget'
    rw [hs₁] at hget'
    injection hget' with h'
    exact ⟨tl, by rw [← h']; exact htl⟩

/-- C6 as stated is false on the code, in two ways exhibited on the
same stored session whose history holds one message.  First,
`updateSession` is a store operation, and calling it with a partial
containing a `conversationHistory` field replaces the stored history
wholesale — here it removes the one message.  Second, `createSession`
for the same phone number at the same millisecond regenerates the same
id, and `Map.set` then overwrites the stored entry with a fresh
empty-history session — again removing the message. -/
theorem C6_counterexample :
    (mapGet (addMessageToSession mgrP sidP msgA 1).2.activeSessions sidP).map
        (·.conversationHistory) = some [msgA] ∧
    ((updateSession (addMessageToSession mgrP sidP msgA 1).2 sidP
        { conversationHistory := some [] } 2).1 = true ∧
     (mapGet (updateSession (addMessageToSession mgrP sidP msgA 1).2 sidP
        { conversationHistory := some [] } 2).2.activeSessions sidP).map
        (·.conversationHistory) = some []) ∧
    (mapGet (createSession (addMessageToSession mgrP sidP msgA 1).2
        "p" 0).2.activeSessions sidP).map
        (·.conversationHistory) = some [] :=
  ⟨rfl, ⟨rfl, rfl⟩, rfl⟩

/-- C6 (amended): a sequence of `addMessageToSession` calls on a stored
session appends exactly its messages in call order (and on an absent id
every append fails leaving the store unchanged).  No store operation
removes or reorders an element of a stored session's history, with
exactly the two exceptions the counterexample exhibits:
`updateSession` given a partial containing a `conversationHistory`
field replaces that session's history wholesale, and `createSession`
overwrites the one entry at its generated id (reusing a stored id when
called for the same phone number in the same millisecond) with a fresh
empty history — at every other key `createSession` leaves histories
unchanged, as the last clause states. -/
theorem C6_append_only (m : ConversationManager) (sid : String)
    (l : List (Message × Nat)) (op : Op) :
    ((mapGet m.activeSessions sid = none → appendRun sid m l = m) ∧
     (∀ s, mapGet m.activeSessions sid = some s →
       ∃ s', mapGet (appendRun sid m l).activeSessions sid = some s' ∧
         s'.conversationHistory = s.conversationHistory ++ l.map Prod.fst)) ∧
    (historySafe op → (m.activeSessions.map Prod.fst).Nodup →
      ∀ k s s', mapGet m.activeSessions k = some s →
        mapGet (applyOp m op).activeSessions k = some s' →
        ∃ tl, s'.conversationHistory = s.conversationHistory ++ tl) ∧
    (∀ p t k s s', mapGet m.activeSessions k = some s →
      mapGet (applyOp m (Op.create p t)).activeSessions k = some s' →
      (k ≠ "whatsapp_" ++ p ++ "_" ++ toString t →
        s'.conversationHistory = s.conversationHistory) ∧
      (k = "whatsapp_" ++ p ++ "_" ++ toString t → s'.conversationHistory = [])) := by
  refine ⟨⟨appendRun_of_absent sid l m, fun s hs => appendRun_history sid l m s hs⟩,
    fun hsafe hnd => historySafe_extends m op hsafe hnd, ?_⟩
  intro p t k s s' hget hget'
  simp only [applyOp, createSession, setSessionTimeout_activeSessions] at hget'
  constructor
  · intro hk
    rw [mapGet_mapSet_ne _ _ _ _ hk, hget] at hget'
    injection hget' with h'
    rw [← h']
  · intro hk
    subst hk
    rw [mapGet_mapSet_self] at hget'
    injection hget' with h'
    rw [← h']

/-- Concrete instances of `C6_append_only` on the sample state: one
append extends the history by exactly that message, ending the session
leaves the history an extension of itself, and creating a session for
the distinct phone number `"q"` leaves the stored history untouched. -/
theorem C6_append_only_witness :
    (∃ s', mapGet (appendRun sidP mgrP [(msgA, 1)]).activeSessions sidP = some s' ∧
      s'.conversationHistory = sessP.conversationHistory ++ [msgA]) ∧
    (∃ tl, ({ sessP with isActive := false } : ConversationSession).conversationHistory =
      sessP.conversationHistory ++ tl) ∧
    sessP.conversationHistory = sessP.conversationHistory := by
  refine ⟨?_, ?_, ?_⟩
  · exact (C6_append_only mgrP sidP [(msgA, 1)] (Op.endSession sidP)).1.2 sessP rfl
  · exact (C6_append_only mgrP sidP [(msgA, 1)] (Op.endSession sidP)).2.1 (by trivial)
      (by decide) sidP sessP { sessP with isActive := false } rfl rfl
  · exact ((C6_append_only mgrP sidP [(msgA, 1)] (Op.endSession sidP)).2.2
      "q" 0 sidP sessP sessP rfl rfl).1 (by decide)

end SessionStore

namespace SessionStore

/-- The per-entry effect of one sweep cycle on a map with distinct keys:
an entry that is already inactive or stale is deactivated, any other
entry is untouched. -/
def sweepEntry (now : Nat) (e : String × ConversationSession) :
    String × ConversationSession :=
  if e.2.isActive = false ∨ now - e.2.lastActivity > SESSION_TIMEOUT then
    (e.1, { e.2 with isActive := false })
  else e

theorem cleanup_fold_eq (now : Nat) :
    ∀ (l pre : List (String × ConversationSession)) (tmo : List (String × Nat)),
      ((pre ++ l).map Prod.fst).Nodup →
      ((l.foldl
        (fun acc e =>
          if e.2.isActive = false ∨ now - e.2.lastActivity > SESSION_TIMEOUT then
            (endSession acc e.1).2
          else acc)
        ⟨pre ++ l, tmo⟩ : ConversationManager)).activeSessions
        = pre ++ l.map (sweepEntry now) := by
  intro l
  induction l with
  | nil =>
    intro pre tmo _
    simp
  | cons e rest ih =>
    intro pre tmo hnd
    obtain ⟨k, s⟩ := e
    rw [List.foldl_cons]
    have hk_pre : k ∉ pre.map Prod.fst := by
      rw [List.map_append] at hnd
      have hdisj := (List.nodup_append.mp hnd).2.2
      intro hmem
      exact hdisj hmem (by simp)
    dsimp only
    by_cases hc : s.isActive = false ∨ now - s.lastActivity > SESSION_TIMEOUT
    · rw [if_pos hc]
      have hget : mapGet (pre ++ (k, s) :: rest) k = some s := by
        rw [mapGet_append_of_not_mem _ hk_pre, mapGet, if_pos rfl]
      have hstate : (endSession ⟨pre ++ (k, s) :: rest, tmo⟩ k).2 =
          (⟨(pre ++ [(k, { s with isActive := false })]) ++ rest, mapDelete tmo k⟩ :
            ConversationManager) := by
        simp only [endSession, hget]
        rw [mapSet_append_of_not_mem _ _ hk_pre]
        simp [mapSet]
      rw [hstate]
      have hnd' : (((pre ++ [(k, { s with isActive := false })]) ++ rest).map
          Prod.fst).Nodup := by
        simpa using hnd
      have hmap : ((k, s) :: rest).map (sweepEntry now) =
          (k, { s with isActive := false }) :: rest.map (sweepEntry now) := by
        simp [sweepEntry, hc]
      rw [hmap, show pre ++ ((k, { s with isActive := false }) :: rest.map (sweepEntry now)) =
        (pre ++ [(k, { s with isActive := false })]) ++ rest.map (sweepEntry now) from by simp]
      exact ih _ _ hnd'
    · rw [if_neg hc]
      have heq : (⟨pre ++ (k, s) :: rest, tmo⟩ : ConversationManager) =
          ⟨(pre ++ [(k, s)]) ++ rest, tmo⟩ := by
        simp
      rw [heq]
      have hmap : ((k, s) :: rest).map (sweepEntry now) =
          (k, s) :: rest.map (sweepEntry now) := by
        simp [sweepEntry, hc]
      rw [hmap, show pre ++ ((k, s) :: rest.map (sweepEntry now)) =
        (pre ++ [(k, s)]) ++ rest.map (sweepEntry now) from by simp]
      exact ih _ _ (by simpa using hnd)

theorem cleanup_eq_map (m : ConversationManager) (now : Nat)
    (hnd : (m.activeSessions.map Prod.fst).Nodup) :
    (cleanupExpiredSessions m now).activeSessions =
      m.activeSessions.map (sweepEntry now) := by
  have h := cleanup_fold_eq now m.activeSessions [] m.sessionTimeouts (by simpa using hnd)
  simpa [cleanupExpiredSessions] using h

/-- C7: in every reachable store state, after one sweep at time `now`
every stored session whose `lastActivity` lies more than
`SESSION_TIMEOUT` in the past is inactive — independently of the
per-session timers, which the sweep never consults. -/
theorem C7_sweep_backstop (m : ConversationManager) (hr : Reachable m) (now : Nat) :
    ∀ e ∈ (cleanupExpiredSessions m now).activeSessions,
      now - e.2.lastActivity > SESSION_TIMEOUT → e.2.isActive = false := by
  intro e he hstale
  have hnd := reachable_nodup m hr
  rw [cleanup_eq_map m now hnd] at he
  obtain ⟨e₀, he₀, hmap⟩ := List.mem_map.mp he
  by_cases hc : e₀.2.isActive = false ∨ now - e₀.2.lastActivity > SESSION_TIMEOUT
  · rw [← hmap]
    simp [sweepEntry, hc]
  · rw [← hmap] at hstale
    simp only [sweepEntry, if_neg hc] at hstale
    exact absurd (Or.inr hstale) hc

/-- Concrete instance of `C7_sweep_backstop`: the sample session,
created at time 0 in a reachable state and never touched, is inactive
after the sweep runs at time `SESSION_TIMEOUT + 1`. -/
theorem C7_sweep_backstop_witness :
    (SESSION_TIMEOUT + 1) -
      ((sidP, ({ sessP with isActive := false } : ConversationSession))).2.lastActivity >
        SESSION_TIMEOUT ∧
    ((sidP, ({ sessP with isActive := false } : ConversationSession))).2.isActive = false := by
  constructor
  · decide
  · exact C7_sweep_backstop mgrP ⟨[Op.create "p" 0], rfl⟩ (SESSION_TIMEOUT + 1)
      (sidP, { sessP with isActive := false }) (by decide) (by decide)

end SessionStore

namespace SessionStore

/-- Concrete instance of `C10_no_entry_removal` on the sample state. -/
theorem C10_no_entry_removal_witness :
    mgrP.activeSessions.map Prod.fst ⊆
      (runOps mgrP [Op.endSession sidP, Op.cleanup 5]).activeSessions.map Prod.fst ∧
    (getSessionStats mgrP).totalSessions ≤
      (getSessionStats (runOps mgrP [Op.endSession sidP, Op.cleanup 5])).totalSessions :=
  C10_no_entry_removal mgrP [Op.endSession sidP, Op.cleanup 5]

end SessionStore
